import Mathlib

/-!
Shallow embedding of the dry-go repository and reconciliation toolkit.

Source layout:
* `src/utils/utils.go` — selector-based projection (`SelectFn`, `SelectAll`,
  `PluckFn`, `PluckUniqFn`, `FieldMapStructFn`, `FieldMapFieldFn`), set
  reconciliation (`SetCmp`, `Uniq`, `Set`).
* `src/unnamed/part_002` (package `gormdb`) — `Query`, `QueryOpt` and its
  option constructors (`NewQueryOpt`, `OmitNotFoundErr`, `Pagination`,
  `OrderBy`, `Preload`, `BuildOpt`), and the generic CRUD repository
  (`Get`, `List`, `Delete`, `UpdateByFn`).

Go maps from keys to values are embedded as functions into `Option`;
Go slices as `List`; Go `int`/`int64` as `Int` (`Int.tdiv`/`Int.tmod`
mirror Go division and remainder, which truncate toward zero).  The
backing store (gorm) is embedded relationally: a store is a `List T`,
the accumulated `Where`/`Not` clauses of a `*Query` are an abstract
row predicate `p : T → Bool`, `ORDER BY` is an abstract reordering
function supplied by the backing store, and `Preload` population is an
abstract relation-loading function.
-/

namespace DryGo

/-! ### Selector-based helpers, src/utils/utils.go -/

/-- Go: `type SelectFn[StructT any, FieldT any] func(StructT) (FieldT, bool)`. -/
def SelectFn (S F : Type) : Type := S → F × Bool

/-- Go `SelectAll`: wraps an unconditional extractor, always including. -/
def SelectAll {F S : Type} (f : S → F) : SelectFn S F :=
  fun structure_ => (f structure_, true)

/-- Go `PluckFn`.  The Go body allocates `result := make([]FieldT, len(list))`,
which is a slice of `len(list)` zero values, and assigns `result[i] = field`
only when the selector includes item `i`; excluded positions keep the zero
value.  `zero` stands for the zero value of `FieldT`. -/
def PluckFn {S F : Type} (zero : F) (list : List S) (fn : SelectFn S F) : List F :=
  list.map (fun item =>
    match fn item with
    | (field, true) => field
    | (_, false) => zero)

/-- Helper for `Uniq`: `seen` is the key set of the Go membership map `m`. -/
def uniqGo {T : Type} [DecidableEq T] (seen : List T) : List T → List T
  | [] => []
  | item :: rest =>
    if seen.contains item then uniqGo seen rest
    else item :: uniqGo (item :: seen) rest

/-- Go `Uniq`: first-occurrence deduplication via a membership map. -/
def Uniq {T : Type} [DecidableEq T] (list : List T) : List T :=
  uniqGo [] list

/-- Go `PluckUniqFn`: `Uniq(PluckFn(list, fn))`. -/
def PluckUniqFn {S F : Type} [DecidableEq F] (zero : F) (list : List S)
    (fn : SelectFn S F) : List F :=
  Uniq (PluckFn zero list fn)

/-- Go `FieldMapStructFn`: builds `map[FieldT]StructT` by iterating the list
in order and writing `result[field] = item` for each included item, so a later
item overwrites an earlier one with the same key.  The Go map is embedded as a
function `F → Option S`, the empty map as the constantly-`none` function. -/
def FieldMapStructFn {F S : Type} [DecidableEq F] (list : List S)
    (fn : SelectFn S F) : F → Option S :=
  list.foldl
    (fun result item =>
      match fn item with
      | (field, true) => fun k => if k = field then some item else result k
      | (_, false) => result)
    (fun _ => none)

/-- Go `FieldMapFieldFn`: like `FieldMapStructFn` but the stored value is
extracted by `valueSel`; an item contributes nothing when either selector
excludes it. -/
def FieldMapFieldFn {K V S : Type} [DecidableEq K] (slice : List S)
    (keySel : SelectFn S K) (valueSel : SelectFn S V) : K → Option V :=
  slice.foldl
    (fun result item =>
      match keySel item with
      | (_, false) => result
      | (key, true) =>
        match valueSel item with
        | (_, false) => result
        | (value, true) => fun k => if k = key then some value else result k)
    (fun _ => none)

/-- Go `SetCmp`.  `mapset.NewSet(l...)` is embedded as the deduplicated list
`Uniq l` (one entry per distinct element; Go iteration order is arbitrary, the
embedding fixes first-occurrence order), `Difference`/`Intersect` followed by
`ToSlice` as filters over that deduplicated list. -/
def SetCmp {E : Type} [DecidableEq E] (current target : List E) :
    List E × List E × List E :=
  let currentSet := Uniq current
  let targetSet := Uniq target
  let added := targetSet.filter (fun x => !currentSet.contains x)
  let deleted := currentSet.filter (fun x => !targetSet.contains x)
  let overlapped := currentSet.filter (fun x => targetSet.contains x)
  (added, overlapped, deleted)

/-! ### Query options, src/unnamed/part_002 (package gormdb) -/

/-- Errors crossing the gorm boundary: the distinguished record-not-found
error and every other backing-store error, opaque to the core. -/
inductive GormErr where
  | recordNotFound
  | other (code : Nat)
deriving DecidableEq, Repr

/-- Go `QueryOpt`.  `OmitNotFoundErrFn` has Go type `func(err error) error`,
a nil-able function returning a nil-able error, embedded as
`Option (GormErr → Option GormErr)` with `none` for the nil default. -/
structure QueryOpt where
  OmitNotFoundErrFn : Option (GormErr → Option GormErr)
  OrderBy : List String
  Preloads : List String
  TotalCount : Int
  PageNumber : Int
  PageSize : Int
  OmitNotFoundErr : Bool
  Paginate : Bool

/-- Go `NewQueryOpt`: zero-valued struct except page number 1 and page size 50. -/
def NewQueryOpt : QueryOpt :=
  { OmitNotFoundErrFn := none
    OrderBy := []
    Preloads := []
    TotalCount := 0
    PageNumber := 1
    PageSize := 50
    OmitNotFoundErr := false
    Paginate := false }

/-- Go `OmitNotFoundErr` option constructor: sets the suppression flag and the
mapping function together.  The Go nil-check panic cannot fire here because a
Lean function argument is always a real function. -/
def OmitNotFoundErr (errFn : GormErr → Option GormErr) : QueryOpt → QueryOpt :=
  fun c => { c with OmitNotFoundErr := true, OmitNotFoundErrFn := some errFn }

/-- Go `Pagination`: always enables pagination, and overrides the page number
and the page size only when the supplied argument is positive. -/
def Pagination (pageNumber pageSize : Int) : QueryOpt → QueryOpt := fun c =>
  let c := { c with Paginate := true }
  let c := if 0 < pageNumber then { c with PageNumber := pageNumber } else c
  if 0 < pageSize then { c with PageSize := pageSize } else c

/-- Go `OrderBy`: replaces the order-by clause list wholesale. -/
def OrderBy (orderBy : List String) : QueryOpt → QueryOpt :=
  fun c => { c with OrderBy := orderBy }

/-- Go `Preload`: replaces the preload relation list wholesale. -/
def Preload (preloads : List String) : QueryOpt → QueryOpt :=
  fun c => { c with Preloads := preloads }

/-- Go `BuildOpt`: folds the option functions left-to-right over `NewQueryOpt`. -/
def BuildOpt (opts : List (QueryOpt → QueryOpt)) : QueryOpt :=
  opts.foldl (fun c fn => fn c) NewQueryOpt

/-- A call to one of the four public option constructors of package `gormdb`,
with its arguments.  Used to quantify over every option list a caller can
legally build from the public constructors. -/
inductive OptSpec where
  | pagination (pageNumber pageSize : Int)
  | orderBy (cols : List String)
  | preload (rels : List String)
  | omitNotFoundErr (errFn : GormErr → Option GormErr)

/-- The option function a public constructor call denotes. -/
def OptSpec.toFn : OptSpec → QueryOpt → QueryOpt
  | .pagination pn ps => Pagination pn ps
  | .orderBy cols => OrderBy cols
  | .preload rels => Preload rels
  | .omitNotFoundErr errFn => OmitNotFoundErr errFn

/-! ### Generic repository, src/unnamed/part_002 (package gormdb) -/

/-- Go `ListRes`: a list result with pagination information. -/
structure ListRes (T : Type) where
  Items : List T
  Total : Int
  PageSize : Int
  PageCount : Int
  Page : Int

/-- Relation population: the accumulated `db.Preload(r)` calls populate each
returned record; `preloadRel` is the backing-store semantics of loading one
named relation into a record. -/
def applyPreloads {T : Type} (preloadRel : String → T → T)
    (preloads : List String) (t : T) : T :=
  preloads.foldl (fun acc r => preloadRel r acc) t

/-- Backing-store semantics of `db.First` after `Where`/`Not` and the preload
loop of `Get`: the first row matching the predicate with its preload relations
populated, or `ErrRecordNotFound` when no row matches. -/
def dbFirst {T : Type} (preloadRel : String → T → T) (store : List T)
    (p : T → Bool) (preloads : List String) : Except GormErr T :=
  match (store.filter p).head? with
  | some t => .ok (applyPreloads preloadRel preloads t)
  | none => .error .recordNotFound

/-- Calling the stored suppression function.  Under the builder invariant the
`none` branch is unreachable: only the `OmitNotFoundErr` constructor sets the
flag, and it stores the function at the same time (Go would panic on a nil
function call). -/
def callOmitFn (o : QueryOpt) (e : GormErr) : Option GormErr :=
  match o.OmitNotFoundErrFn with
  | some fn => fn e
  | none => none

/-- Error handling of Go `crud.Get` after the `db.First` call, verbatim:
`if err != nil && o.OmitNotFoundErr { return nil, o.OmitNotFoundErrFn(err) }`
then `return result, nil`.  On the fall-through branch `result` still holds
the zero value `new(T)` when `First` failed; `zero` stands for that zero
value.  The Go pair `(*T, error)` is embedded as `Option T × Option GormErr`. -/
def getAfterFirst {T : Type} (o : QueryOpt) (zero : T)
    (res : Except GormErr T) : Option T × Option GormErr :=
  match res with
  | .ok t => (some t, none)
  | .error e =>
    if o.OmitNotFoundErr then (none, callOmitFn o e)
    else (some zero, none)

/-- Go `crud.Get`: builds the options, queries the first matching record with
preloads applied (note: the Go body never applies `o.OrderBy`), then runs the
error-handling branch. -/
def crudGet {T : Type} (preloadRel : String → T → T) (zero : T)
    (store : List T) (p : T → Bool) (opts : List (QueryOpt → QueryOpt)) :
    Option T × Option GormErr :=
  let o := BuildOpt opts
  getAfterFirst o zero (dbFirst preloadRel store p o.Preloads)

/-- Error handling of Go `crud.Delete` after the `db.Delete` call, verbatim:
`if err != nil && o.OmitNotFoundErr { return o.OmitNotFoundErrFn(err) }`
then `return nil`.  `res` is the error returned by the backing delete. -/
def deleteAfter (o : QueryOpt) (res : Option GormErr) : Option GormErr :=
  match res with
  | some e => if o.OmitNotFoundErr then callOmitFn o e else none
  | none => none

/-- Go `crud.Delete`: removes every matching row.  The backing delete of the
pure store model always succeeds, so the error branch (`deleteAfter` with a
backing error) is exercised separately. -/
def crudDelete {T : Type} (store : List T) (p : T → Bool)
    (opts : List (QueryOpt → QueryOpt)) : List T × Option GormErr :=
  let o := BuildOpt opts
  (store.filter (fun t => !(p t)), deleteAfter o none)

/-- Go `crud.List`.  `Where`/`Not` filter the store; the `Order` clauses are
applied by the backing store (`sortBy`, an abstract reordering); when
pagination is enabled the count query runs first (SQL `COUNT` is unaffected
by `ORDER BY` and preloads, so it counts the filtered rows) and then
`offset = (PageNumber-1)*PageSize, limit = PageSize` apply to the main query;
preloads populate each returned record; the page count is
`int(TotalCount/PageSize)` plus one when `TotalCount%PageSize > 0`, with the
Go (truncating) division and remainder. -/
def crudList {T : Type} (sortBy : List String → List T → List T)
    (preloadRel : String → T → T) (store : List T) (p : T → Bool)
    (opts : List (QueryOpt → QueryOpt)) : ListRes T :=
  let o := BuildOpt opts
  let matched := store.filter p
  let ordered := sortBy o.OrderBy matched
  let total : Int := if o.Paginate then (matched.length : Int) else o.TotalCount
  let page :=
    if o.Paginate then
      (ordered.drop ((o.PageNumber - 1) * o.PageSize).toNat).take o.PageSize.toNat
    else ordered
  let results := page.map (applyPreloads preloadRel o.Preloads)
  let pageCount := total.tdiv o.PageSize + (if 0 < total.tmod o.PageSize then 1 else 0)
  { Items := results
    Total := total
    PageSize := o.PageSize
    PageCount := pageCount
    Page := o.PageNumber }

/-- Replacement semantics of `tx.Save(updatedEntity)` inside `UpdateByFn`:
the fetched row (the first one matching the predicate) is overwritten by the
mutated entity; every other row is untouched. -/
def replaceFirst {T : Type} (p : T → Bool) (t1 : T) : List T → List T
  | [] => []
  | x :: xs => if p x then t1 :: xs else x :: replaceFirst p t1 xs

/-- Go `crud.UpdateByFn`, one transaction: fetch the first match (its error,
`ErrRecordNotFound` included, aborts); run `updateFn`, which mutates the
entity and returns `(changed, error)`, embedded as
`updateFn : T → Bool × T × Option GormErr` returning
`(changed, mutated entity, error)`; a non-nil error aborts the transaction
(rollback leaves the store unchanged) and propagates verbatim; `changed`
false commits with no write; otherwise the mutated entity is saved and the
transaction commits.  The result is the store after the transaction paired
with the returned error. -/
def crudUpdateByFn {T : Type} (store : List T) (p : T → Bool)
    (updateFn : T → Bool × T × Option GormErr) : List T × Option GormErr :=
  match (store.filter p).head? with
  | none => (store, some .recordNotFound)
  | some t0 =>
    match updateFn t0 with
    | (_, _, some e) => (store, some e)
    | (false, _, none) => (store, none)
    | (true, t1, none) => (replaceFirst p t1 store, none)

/-- Get as the spec words it, for comparison with `crudGet` only: the
ordering options are applied to the query before the first record is chosen.
This definition follows the words of the spec, not the source. -/
def crudGetOrderedSpec {T : Type} (sortBy : List String → List T → List T)
    (preloadRel : String → T → T) (zero : T) (store : List T) (p : T → Bool)
    (opts : List (QueryOpt → QueryOpt)) : Option T × Option GormErr :=
  let o := BuildOpt opts
  getAfterFirst o zero
    (match (sortBy o.OrderBy (store.filter p)).head? with
     | some t => .ok (applyPreloads preloadRel o.Preloads t)
     | none => .error .recordNotFound)

/-! ### Helper lemmas -/

theorem mem_uniqGo {T : Type} [DecidableEq T] (seen : List T) (l : List T)
    (x : T) : x ∈ uniqGo seen l ↔ x ∈ l ∧ x ∉ seen := by
  induction l generalizing seen with
  | nil => simp [uniqGo]
  | cons a rest ih =>
    by_cases h : seen.contains a = true
    · have ha : a ∈ seen := List.elem_iff.mp h
      simp only [uniqGo, h, if_true, ih, List.mem_cons]
      constructor
      · rintro ⟨hx, hs⟩; exact ⟨Or.inr hx, hs⟩
      · rintro ⟨hx | hx, hs⟩
        · exact absurd (hx ▸ ha) hs
        · exact ⟨hx, hs⟩
    · have hb : seen.contains a = false := by simpa using h
      have ha : a ∉ seen := fun hm => h (List.elem_iff.mpr hm)
      simp only [uniqGo, hb, Bool.false_eq_true, if_false, List.mem_cons, ih]
      constructor
      · rintro (rfl | ⟨hx, hs⟩)
        · exact ⟨Or.inl rfl, ha⟩
        · exact ⟨Or.inr hx, fun hm => hs (Or.inr hm)⟩
      · rintro ⟨rfl | hx, hs⟩
        · exact Or.inl rfl
        · by_cases hxa : x = a
          · exact Or.inl hxa
          · exact Or.inr ⟨hx, fun hm => hm.elim hxa hs⟩

theorem mem_Uniq {T : Type} [DecidableEq T] (l : List T) (x : T) :
    x ∈ Uniq l ↔ x ∈ l := by
  simp [Uniq, mem_uniqGo]

/-! ### Claim theorems -/

/-- C1.  The claim fails on the code: with suppression not configured,
`crud.Get` and `crud.Delete` swallow every backing error instead of
propagating it.  At the failing input (empty store, unsatisfiable predicate,
no options) `Get` returns the zero-valued record with a nil error rather than
failing with the not-found error, and `Delete` turns a backing
record-not-found error into a nil error. -/
theorem get_delete_swallow_errors_without_suppression :
    crudGet (fun _ t => t) (0 : Nat) [] (fun _ => false) [] = (some 0, none)
    ∧ getAfterFirst (BuildOpt []) (0 : Nat)
        (Except.error GormErr.recordNotFound) = (some 0, none)
    ∧ deleteAfter (BuildOpt []) (some GormErr.recordNotFound) = none :=
  ⟨rfl, rfl, rfl⟩

/-- C2.  The claim fails on the code: `PluckFn` does not compact.  Its output
always has exactly the length of its input, and a record whose selector
reports include false leaves a zero-valued gap at its position, shown at the
concrete input `[1, 2]` with a selector including only even numbers. -/
theorem pluckFn_output_keeps_zero_gaps :
    (∀ {S F : Type} (zero : F) (list : List S) (fn : SelectFn S F),
      (PluckFn zero list fn).length = list.length)
    ∧ PluckFn (0 : Nat) [1, 2] (fun n => (n, decide (n % 2 = 0))) = [0, 2]
    ∧ PluckFn (0 : Nat) [1, 2] (fun n => (n, decide (n % 2 = 0))) ≠ [2] :=
  ⟨fun zero list fn => by simp [PluckFn], by decide, by decide⟩

/-- C6.  The claim fails on the code: the core never inspects the error, so
with suppression configured the mapping function is applied to every backing
error, not only to the not-found condition — here a non-not-found backing
error (`other 7`) is rewritten by the mapping into `recordNotFound` in `Get`
and in `Delete` — and with suppression off a non-not-found backing error is
not propagated at all. -/
theorem suppression_mapping_applied_to_every_error :
    getAfterFirst (BuildOpt [OmitNotFoundErr (fun _ => some GormErr.recordNotFound)])
        (0 : Nat) (Except.error (GormErr.other 7))
      = (none, some GormErr.recordNotFound)
    ∧ getAfterFirst (BuildOpt []) (0 : Nat) (Except.error (GormErr.other 7))
      = (some 0, none)
    ∧ deleteAfter (BuildOpt [OmitNotFoundErr (fun _ => some GormErr.recordNotFound)])
        (some (GormErr.other 7)) = some GormErr.recordNotFound :=
  ⟨rfl, rfl, rfl⟩

/-- C8.  Building query options folds the option functions left-to-right over
the default configuration (page number 1, page size 50, pagination disabled,
suppression disabled), and `Pagination` with a non-positive page number or
page size leaves the corresponding value untouched while still enabling
pagination. -/
theorem buildOpt_defaults_and_pagination_guard :
    (NewQueryOpt.PageNumber = 1 ∧ NewQueryOpt.PageSize = 50
      ∧ NewQueryOpt.Paginate = false ∧ NewQueryOpt.OmitNotFoundErr = false)
    ∧ (∀ opts : List (QueryOpt → QueryOpt),
        BuildOpt opts = opts.foldl (fun c fn => fn c) NewQueryOpt)
    ∧ (∀ (pn ps : Int) (c : QueryOpt),
        (Pagination pn ps c).Paginate = true
        ∧ (pn ≤ 0 → (Pagination pn ps c).PageNumber = c.PageNumber)
        ∧ (ps ≤ 0 → (Pagination pn ps c).PageSize = c.PageSize)) := by
  refine ⟨⟨rfl, rfl, rfl, rfl⟩, fun opts => rfl, fun pn ps c => ?_⟩
  unfold Pagination
  dsimp only
  split_ifs with h1 h2 <;>
    exact ⟨rfl, fun hpn => by first | rfl | omega, fun hps => by first | rfl | omega⟩

/-- Witness for C8: `Pagination 0 (-3)` applied to the defaults enables
pagination and leaves page number and page size at their defaults. -/
theorem buildOpt_defaults_and_pagination_guard_witness :
    (Pagination 0 (-3) NewQueryOpt).Paginate = true
    ∧ (Pagination 0 (-3) NewQueryOpt).PageNumber = NewQueryOpt.PageNumber
    ∧ (Pagination 0 (-3) NewQueryOpt).PageSize = NewQueryOpt.PageSize :=
  ⟨(buildOpt_defaults_and_pagination_guard.2.2 0 (-3) NewQueryOpt).1,
   (buildOpt_defaults_and_pagination_guard.2.2 0 (-3) NewQueryOpt).2.1 (by decide),
   (buildOpt_defaults_and_pagination_guard.2.2 0 (-3) NewQueryOpt).2.2 (by decide)⟩

theorem optSpec_preserves_page_bounds (sp : OptSpec) (c : QueryOpt)
    (hn : 1 ≤ c.PageNumber) (hs : 1 ≤ c.PageSize) :
    1 ≤ (sp.toFn c).PageNumber ∧ 1 ≤ (sp.toFn c).PageSize := by
  cases sp with
  | pagination pn ps =>
    unfold OptSpec.toFn Pagination
    dsimp only
    split_ifs with h1 h2 <;> constructor <;> simp <;> omega
  | orderBy cols => exact ⟨hn, hs⟩
  | preload rels => exact ⟨hn, hs⟩
  | omitNotFoundErr errFn => exact ⟨hn, hs⟩

theorem foldl_optSpec_preserves_page_bounds (specs : List OptSpec)
    (c : QueryOpt) (hn : 1 ≤ c.PageNumber) (hs : 1 ≤ c.PageSize) :
    1 ≤ (specs.foldl (fun c sp => sp.toFn c) c).PageNumber
    ∧ 1 ≤ (specs.foldl (fun c sp => sp.toFn c) c).PageSize := by
  induction specs generalizing c with
  | nil => exact ⟨hn, hs⟩
  | cons sp rest ih =>
    have h := optSpec_preserves_page_bounds sp c hn hs
    exact ih (sp.toFn c) h.1 h.2

/-- C10.  Every configuration built by `BuildOpt` from the public option
constructors has page number and page size at least 1; in particular the page
size is never the zero divisor of the page-count division in `crud.List`. -/
theorem buildOpt_page_fields_positive (specs : List OptSpec) :
    1 ≤ (BuildOpt (specs.map OptSpec.toFn)).PageNumber
    ∧ 1 ≤ (BuildOpt (specs.map OptSpec.toFn)).PageSize
    ∧ (BuildOpt (specs.map OptSpec.toFn)).PageSize ≠ 0 := by
  have hfold : BuildOpt (specs.map OptSpec.toFn)
      = specs.foldl (fun c sp => sp.toFn c) NewQueryOpt := by
    simp [BuildOpt, List.foldl_map]
  have h := foldl_optSpec_preserves_page_bounds specs NewQueryOpt
    (by decide) (by decide)
  rw [hfold]
  exact ⟨h.1, h.2, by omega⟩

/-- C7.  `SetCmp current target` returns `(added, overlapped, deleted)` with,
under value equality, `added = target − current`, `deleted = current −
target`, `overlapped = current ∩ target`; consequently `added` and `deleted`
are disjoint, `added ∪ overlapped = target` as sets and `deleted ∪ overlapped
= current` as sets. -/
theorem setCmp_reconciliation {E : Type} [DecidableEq E]
    (current target : List E) :
    (∀ x, x ∈ (SetCmp current target).1 ↔ x ∈ target ∧ x ∉ current)
    ∧ (∀ x, x ∈ (SetCmp current target).2.2 ↔ x ∈ current ∧ x ∉ target)
    ∧ (∀ x, x ∈ (SetCmp current target).2.1 ↔ x ∈ current ∧ x ∈ target)
    ∧ (∀ x, ¬(x ∈ (SetCmp current target).1 ∧ x ∈ (SetCmp current target).2.2))
    ∧ (∀ x, (x ∈ (SetCmp current target).1 ∨ x ∈ (SetCmp current target).2.1)
        ↔ x ∈ target)
    ∧ (∀ x, (x ∈ (SetCmp current target).2.2 ∨ x ∈ (SetCmp current target).2.1)
        ↔ x ∈ current) := by
  have hadd : ∀ x, x ∈ (SetCmp current target).1 ↔ x ∈ target ∧ x ∉ current := by
    intro x
    simp [SetCmp, List.mem_filter, mem_Uniq, List.elem_iff]
  have hdel : ∀ x, x ∈ (SetCmp current target).2.2 ↔ x ∈ current ∧ x ∉ target := by
    intro x
    simp [SetCmp, List.mem_filter, mem_Uniq, List.elem_iff]
  have hover : ∀ x, x ∈ (SetCmp current target).2.1 ↔ x ∈ current ∧ x ∈ target := by
    intro x
    simp [SetCmp, List.mem_filter, mem_Uniq, List.elem_iff]
  refine ⟨hadd, hdel, hover, ?_, ?_, ?_⟩
  · intro x hx
    exact (hadd x).mp hx.1 |>.2 ((hdel x).mp hx.2).1
  · intro x
    rw [hadd x, hover x]
    constructor
    · rintro (⟨h, _⟩ | ⟨_, h⟩) <;> exact h
    · intro h
      by_cases hc : x ∈ current
      · exact Or.inr ⟨hc, h⟩
      · exact Or.inl ⟨h, hc⟩
  · intro x
    rw [hdel x, hover x]
    constructor
    · rintro (⟨h, _⟩ | ⟨h, _⟩) <;> exact h
    · intro h
      by_cases ht : x ∈ target
      · exact Or.inr ⟨h, ht⟩
      · exact Or.inl ⟨h, ht⟩

/-- C3.  Inside the `UpdateByFn` transaction, once the first matching record
`t0` has been fetched: a failing update function rolls the transaction back
(the store is unchanged) and its error is returned unchanged; a `(false, nil)`
result commits without any write, leaving the store unchanged; only a
`(true, nil)` result saves the mutated record. -/
theorem updateByFn_contract {T : Type} (store : List T) (p : T → Bool)
    (updateFn : T → Bool × T × Option GormErr) (t0 : T)
    (h : (store.filter p).head? = some t0) :
    (∀ (ch : Bool) (t1 : T) (e : GormErr), updateFn t0 = (ch, t1, some e) →
      crudUpdateByFn store p updateFn = (store, some e))
    ∧ (∀ t1 : T, updateFn t0 = (false, t1, none) →
      crudUpdateByFn store p updateFn = (store, none))
    ∧ (∀ t1 : T, updateFn t0 = (true, t1, none) →
      crudUpdateByFn store p updateFn = (replaceFirst p t1 store, none)) := by
  refine ⟨?_, ?_, ?_⟩
  · intro ch t1 e hupd
    cases ch <;> simp [crudUpdateByFn, h, hupd]
  · intro t1 hupd
    simp [crudUpdateByFn, h, hupd]
  · intro t1 hupd
    simp [crudUpdateByFn, h, hupd]

/-- Witness for C3: a read-only update function over the one-record store
`[5]` commits with no write and no error. -/
theorem updateByFn_contract_witness :
    crudUpdateByFn [5] (fun _ => true) (fun t => (false, t, none)) = ([5], none) :=
  (updateByFn_contract [5] (fun _ => true) (fun t => (false, t, none)) 5 rfl).2.1 5 rfl

/-- C5, counterexample.  At the concrete input: store `[1, 2]`, all-matching
predicate, an ordering option whose backing-store semantics reverses the rows,
`crud.Get` returns the record `1` while a Get that applied the ordering before
choosing the first record (as the claim states) would return `2`. -/
theorem get_ordering_counterexample :
    (crudGet (fun _ t => t) (0 : Nat) [1, 2] (fun _ => true)
        [OrderBy ["id desc"]]).1 = some 1
    ∧ (crudGetOrderedSpec (fun _ l => l.reverse) (fun _ t => t) (0 : Nat)
        [1, 2] (fun _ => true) [OrderBy ["id desc"]]).1 = some 2
    ∧ (crudGet (fun _ t => t) (0 : Nat) [1, 2] (fun _ => true)
        [OrderBy ["id desc"]]).1
      ≠ (crudGetOrderedSpec (fun _ l => l.reverse) (fun _ t => t) (0 : Nat)
        [1, 2] (fun _ => true) [OrderBy ["id desc"]]).1 :=
  ⟨rfl, rfl, by decide⟩

/-- C5, amended.  `crud.Get` does not apply the ordering options: when a first
match exists it returns that first record in the backing-store default order,
with the requested preload relations populated, and appending an ordering
option to the option list does not change the result of `Get` at all. -/
theorem get_ignores_ordering_applies_preloads {T : Type}
    (preloadRel : String → T → T) (zero : T) (store : List T) (p : T → Bool)
    (opts : List (QueryOpt → QueryOpt)) (t0 : T)
    (h : (store.filter p).head? = some t0) :
    crudGet preloadRel zero store p opts
      = (some (applyPreloads preloadRel (BuildOpt opts).Preloads t0), none)
    ∧ ∀ cols : List String,
        crudGet preloadRel zero store p (opts ++ [OrderBy cols])
          = crudGet preloadRel zero store p opts := by
  constructor
  · simp [crudGet, dbFirst, h, getAfterFirst]
  · intro cols
    have hbuild : BuildOpt (opts ++ [OrderBy cols])
        = OrderBy cols (BuildOpt opts) := by
      simp [BuildOpt, List.foldl_append]
    simp only [crudGet, hbuild, OrderBy]
    rfl

/-- Witness for C5: over the store `[3]` with two preload relations that each
add 10, `Get` returns 23, and appending an ordering option changes nothing. -/
theorem get_ignores_ordering_applies_preloads_witness :
    crudGet (fun _ t => t + 10) (0 : Nat) [3] (fun _ => true)
        [Preload ["a", "b"]] = (some 23, none)
    ∧ crudGet (fun _ t => t + 10) (0 : Nat) [3] (fun _ => true)
        ([Preload ["a", "b"]] ++ [OrderBy ["id desc"]])
      = crudGet (fun _ t => t + 10) (0 : Nat) [3] (fun _ => true)
        [Preload ["a", "b"]] := by
  have h := get_ignores_ordering_applies_preloads (T := Nat)
    (fun _ t => t + 10) 0 [3] (fun _ => true) [Preload ["a", "b"]] 3 rfl
  exact ⟨by simpa using h.1, h.2 ["id desc"]⟩

theorem filter_getLast_of_last_passing {α : Type} (l : List α) (q : α → Bool)
    (j : Nat) (hj : j < l.length) (hq : q l[j] = true)
    (hafter : ∀ (m : Nat) (hm : m < l.length), j < m → q l[m] = false) :
    (l.filter q).getLast? = some l[j] := by
  have hsplit : l = l.take (j + 1) ++ l.drop (j + 1) :=
    (List.take_append_drop _ _).symm
  have hdrop : (l.drop (j + 1)).filter q = [] := by
    rw [List.filter_eq_nil_iff]
    intro a ha
    obtain ⟨i, hi, hEq⟩ := List.mem_iff_getElem.mp ha
    have hlen : j + 1 + i < l.length := by
      rw [List.length_drop] at hi
      omega
    have hfalse : q l[j + 1 + i] = false := hafter _ hlen (by omega)
    rw [← hEq, List.getElem_drop]
    simp [hfalse]
  have htake : l.take (j + 1) = l.take j ++ [l[j]] := by
    rw [List.take_succ]
    simp [List.getElem?_eq_getElem hj]
  have hone : [l[j]].filter q = [l[j]] := by simp [hq]
  conv_lhs => rw [hsplit]
  rw [List.filter_append, hdrop, List.append_nil, htake, List.filter_append,
    hone, List.getLast?_concat]

theorem fieldMapStructFn_concat {F S : Type} [DecidableEq F]
    (xs : List S) (a : S) (fn : SelectFn S F) :
    FieldMapStructFn (xs ++ [a]) fn
      = match fn a with
        | (field, true) =>
          fun k => if k = field then some a else FieldMapStructFn xs fn k
        | (_, false) => FieldMapStructFn xs fn := by
  simp [FieldMapStructFn, List.foldl_append]

theorem fieldMapStructFn_eq_getLast {F S : Type} [DecidableEq F]
    (l : List S) (fn : SelectFn S F) (k : F) :
    FieldMapStructFn l fn k
      = (l.filter (fun s => (fn s).2 && decide ((fn s).1 = k))).getLast? := by
  induction l using List.reverseRecOn with
  | nil => rfl
  | append_singleton xs a ih =>
    rw [fieldMapStructFn_concat, List.filter_append]
    rcases hfa : fn a with ⟨f, b⟩
    cases b with
    | false => simp [hfa, ih]
    | true =>
      by_cases hk : f = k
      · subst hk
        simp [hfa, List.getLast?_concat]
      · have hk2 : ¬(k = f) := fun h => hk h.symm
        simp [hfa, hk, hk2, ih]

theorem fieldMapFieldFn_concat {K V S : Type} [DecidableEq K]
    (xs : List S) (a : S) (ks : SelectFn S K) (vs : SelectFn S V) :
    FieldMapFieldFn (xs ++ [a]) ks vs
      = match ks a with
        | (_, false) => FieldMapFieldFn xs ks vs
        | (key, true) =>
          match vs a with
          | (_, false) => FieldMapFieldFn xs ks vs
          | (value, true) =>
            fun k => if k = key then some value else FieldMapFieldFn xs ks vs k := by
  simp [FieldMapFieldFn, List.foldl_append]

theorem fieldMapFieldFn_eq_getLast {K V S : Type} [DecidableEq K]
    (l : List S) (ks : SelectFn S K) (vs : SelectFn S V) (k : K) :
    FieldMapFieldFn l ks vs k
      = ((l.filter
            (fun s => (ks s).2 && ((vs s).2 && decide ((ks s).1 = k)))).getLast?).map
          (fun s => (vs s).1) := by
  induction l using List.reverseRecOn with
  | nil => rfl
  | append_singleton xs a ih =>
    rw [fieldMapFieldFn_concat, List.filter_append]
    rcases hka : ks a with ⟨κ, bk⟩
    cases bk with
    | false => simp [hka, ih]
    | true =>
      rcases hva : vs a with ⟨v, bv⟩
      cases bv with
      | false => simp [hka, hva, ih]
      | true =>
        by_cases hk : κ = k
        · subst hk
          simp [hka, hva, List.getLast?_concat]
        · have hk2 : ¬(k = κ) := fun h => hk h.symm
          simp [hka, hva, hk, hk2, ih]

/-- C9.  Last write wins on duplicate keys: when positions `i < j` of the
input produce the same key (both included) and `j` is the last position
contributing that key, `FieldMapStructFn` maps the key to the record at `j`,
and `FieldMapFieldFn` maps it to the value extracted from the record at `j`. -/
theorem fieldMap_last_write_wins {F K V S : Type} [DecidableEq F]
    [DecidableEq K] :
    (∀ (l : List S) (fn : SelectFn S F) (k : F) (i j : Nat)
      (hi : i < l.length) (hj : j < l.length), i < j →
      fn l[i] = (k, true) → fn l[j] = (k, true) →
      (∀ (m : Nat) (hm : m < l.length), j < m →
        ¬((fn l[m]).1 = k ∧ (fn l[m]).2 = true)) →
      FieldMapStructFn l fn k = some l[j])
    ∧ (∀ (l : List S) (ks : SelectFn S K) (vs : SelectFn S V) (k : K)
      (i j : Nat) (hi : i < l.length) (hj : j < l.length), i < j →
      (ks l[i]).1 = k → (ks l[i]).2 = true →
      ks l[j] = (k, true) → (vs l[j]).2 = true →
      (∀ (m : Nat) (hm : m < l.length), j < m →
        ¬((ks l[m]).1 = k ∧ (ks l[m]).2 = true ∧ (vs l[m]).2 = true)) →
      FieldMapFieldFn l ks vs k = some (vs l[j]).1) := by
  constructor
  · intro l fn k i j hi hj hij hki hkj hafter
    have hfail : ∀ (m : Nat) (hm : m < l.length), j < m →
        ((fn l[m]).2 && decide ((fn l[m]).1 = k)) = false := by
      intro m hm hjm
      by_cases h2 : (fn l[m]).2 = true
      · have h1 : ¬((fn l[m]).1 = k) := fun h1 => hafter m hm hjm ⟨h1, h2⟩
        simp [h2, h1]
      · have h2f : (fn l[m]).2 = false := by
          cases hb : (fn l[m]).2
          · rfl
          · exact absurd hb h2
        simp [h2f]
    have hlast := filter_getLast_of_last_passing l
      (fun s => (fn s).2 && decide ((fn s).1 = k)) j hj (by simp [hkj]) hfail
    rw [fieldMapStructFn_eq_getLast, hlast]
  · intro l ks vs k i j hi hj hij hki1 hki2 hkj hvj hafter
    have hfail : ∀ (m : Nat) (hm : m < l.length), j < m →
        ((ks l[m]).2 && ((vs l[m]).2 && decide ((ks l[m]).1 = k))) = false := by
      intro m hm hjm
      by_cases h2 : (ks l[m]).2 = true
      · by_cases h3 : (vs l[m]).2 = true
        · have h1 : ¬((ks l[m]).1 = k) := fun h1 => hafter m hm hjm ⟨h1, h2, h3⟩
          simp [h2, h3, h1]
        · have h3f : (vs l[m]).2 = false := by
            cases hb : (vs l[m]).2
            · rfl
            · exact absurd hb h3
          simp [h3f]
      · have h2f : (ks l[m]).2 = false := by
          cases hb : (ks l[m]).2
          · rfl
          · exact absurd hb h2
        simp [h2f]
    have hlast := filter_getLast_of_last_passing l
      (fun s => (ks s).2 && ((vs s).2 && decide ((ks s).1 = k))) j hj
      (by simp [hkj, hvj]) hfail
    rw [fieldMapFieldFn_eq_getLast, hlast]
    rfl

/-- Witness for C9: two records share the key 1; the struct map returns the
later record and the field map returns the later name. -/
theorem fieldMap_last_write_wins_witness :
    FieldMapStructFn [(1, "Alice"), (1, "Bob")]
        (SelectAll Prod.fst) 1 = some ((1 : Nat), "Bob")
    ∧ FieldMapFieldFn [(1, "Alice"), (1, "Bob")]
        (SelectAll Prod.fst) (SelectAll Prod.snd) 1 = some "Bob" := by
  have h1 := (fieldMap_last_write_wins (F := Nat) (K := Nat) (V := String)
      (S := Nat × String)).1
    [(1, "Alice"), (1, "Bob")] (SelectAll Prod.fst) 1 0 1
    (by decide) (by decide) (by decide) rfl rfl
    (by intro m hm hjm h; simp at hm; omega)
  have h2 := (fieldMap_last_write_wins (F := Nat) (K := Nat) (V := String)
      (S := Nat × String)).2
    [(1, "Alice"), (1, "Bob")] (SelectAll Prod.fst) (SelectAll Prod.snd) 1 0 1
    (by decide) (by decide) (by decide) rfl rfl rfl rfl
    (by intro m hm hjm h; simp at hm; omega)
  exact ⟨h1, h2⟩

theorem div_mod_ceil (n s : Nat) (hs : 1 ≤ s) :
    n / s + (if 0 < n % s then 1 else 0) = n ⌈/⌉ s := by
  rw [Nat.ceilDiv_eq_add_pred_div]
  have hmod := Nat.div_add_mod n s
  set q := n / s with hq
  set r := n % s with hr
  have hrs : r < s := Nat.mod_lt _ (by omega)
  by_cases h : 0 < r
  · rw [if_pos h]
    have hmul : s * (q + 1) = s * q + s := by ring
    have hn : n + s - 1 = (r - 1) + s * (q + 1) := by omega
    rw [hn, Nat.add_mul_div_left _ _ (by omega), Nat.div_eq_of_lt (by omega)]
    omega
  · rw [if_neg h]
    have hn : n + s - 1 = (s - 1) + s * q := by omega
    rw [hn, Nat.add_mul_div_left _ _ (by omega), Nat.div_eq_of_lt (by omega)]
    omega

theorem tdiv_tmod_ceil (n s : Nat) (hs : 1 ≤ s) :
    (n : Int).tdiv (s : Int)
        + (if (0 : Int) < (n : Int).tmod (s : Int) then 1 else 0)
      = ((n ⌈/⌉ s : Nat) : Int) := by
  rw [← Int.ofNat_tdiv, ← Int.ofNat_tmod, ← div_mod_ceil n s hs]
  by_cases h : 0 < n % s
  · rw [if_pos (Int.ofNat_pos.mpr h), if_pos h]
    push_cast
    ring
  · rw [if_neg (fun hc => h (Int.ofNat_pos.mp hc)), if_neg h]
    push_cast
    ring

/-- C4.  With pagination enabled and built page number `pn ≥ 1`, page size
`s ≥ 1`: the total is the count of the records matching the predicate alone,
the items are the main query result at offset `(pn − 1) * s` with limit `s`,
and the page count is the ceiling of total over page size. -/
theorem list_pagination_contract {T : Type}
    (sortBy : List String → List T → List T) (preloadRel : String → T → T)
    (store : List T) (p : T → Bool) (opts : List (QueryOpt → QueryOpt))
    (pn s : Nat)
    (hpag : (BuildOpt opts).Paginate = true)
    (hpn : (BuildOpt opts).PageNumber = (pn : Int)) (hpn1 : 1 ≤ pn)
    (hs : (BuildOpt opts).PageSize = (s : Int)) (hs1 : 1 ≤ s) :
    (crudList sortBy preloadRel store p opts).Total
        = ((store.filter p).length : Int)
    ∧ (crudList sortBy preloadRel store p opts).Items
        = (((sortBy (BuildOpt opts).OrderBy (store.filter p)).drop
              ((pn - 1) * s)).take s).map
            (applyPreloads preloadRel (BuildOpt opts).Preloads)
    ∧ (crudList sortBy preloadRel store p opts).PageCount
        = (((store.filter p).length ⌈/⌉ s : Nat) : Int) := by
  have hoff : (((BuildOpt opts).PageNumber - 1) * (BuildOpt opts).PageSize).toNat
      = (pn - 1) * s := by
    rw [hpn, hs]
    have h1 : ((pn : Int) - 1) * (s : Int) = (((pn - 1) * s : Nat) : Int) := by
      push_cast [hpn1]
      ring
    rw [h1, Int.toNat_natCast]
  have htake : (BuildOpt opts).PageSize.toNat = s := by
    rw [hs, Int.toNat_natCast]
  refine ⟨?_, ?_, ?_⟩
  · simp [crudList, hpag]
  · simp [crudList, hpag, hoff, htake]
  · simp only [crudList, hpag, if_true, hs]
    exact tdiv_tmod_ceil _ s hs1

/-- Witness for C4, the spec scenario: page size 2, page 2 over 5 matching
records returns records 2 and 3 (0-indexed offset 2), total 5, page count 3. -/
theorem list_pagination_contract_witness :
    (crudList (fun _ l => l) (fun _ t => t) [0, 1, 2, 3, 4] (fun _ => true)
        [Pagination 2 2]).Items = [2, 3]
    ∧ (crudList (fun _ l => l) (fun _ t => t) [0, 1, 2, 3, 4] (fun _ => true)
        [Pagination 2 2]).Total = 5
    ∧ (crudList (fun _ l => l) (fun _ t => t) [0, 1, 2, 3, 4] (fun _ => true)
        [Pagination 2 2]).PageCount = 3 := by
  have h := list_pagination_contract (fun _ l => l) (fun _ t => t)
    [0, 1, 2, 3, 4] (fun _ => true) [Pagination 2 2] 2 2
    rfl (by decide) (by decide) (by decide) (by decide)
  refine ⟨?_, ?_, ?_⟩
  · rw [h.2.1]; rfl
  · rw [h.1]; rfl
  · rw [h.2.2]; rfl

end DryGo
